import Mathlib

/-!
# Verification of the libros book manager

A shallow embedding, in Lean 4, of the core logic of the `libros`
terminal book-library manager (Go), together with proofs of the
behavioural properties claimed in its specification.

The embedding covers:

* the record store (`internal/database/database.go`): an in-memory model
  of the `books` SQLite table, with `SaveBook`, `LoadBooks`, `UpdateBook`,
  `DeleteBook`, `GetBookCount`.  Timestamps are abstracted as naturals
  passed explicitly to each mutating operation (the code uses
  `CURRENT_TIMESTAMP`);
* the form focus state machines of the Add screen
  (`AddBookModel.Update`, revision with the book-type selector) and the
  Edit screen (`internal/ui/screens/edit.go`, `EditModel.Update`);
* the list screen (`ListBooksModel.Update`, revision with scroll offset),
  the detail screen (`DetailModel.Update`), the menu, the backup screen
  and the top-level screen router (`internal/ui/model.go`, `Model.Update`);
* the export screen's path-entry state
  (`internal/ui/screens/export.go`, `ExportScreen.updatePathInput`),
  with the filesystem abstracted as an environment parameter.

The text-input widgets (`charmbracelet/bubbles` `textinput`/`textarea`)
are external collaborators; they are modelled by their held string value,
with character insertion appending at the end of the value subject to the
configured character limit (the forms move the cursor to the end on every
focus change), and cursor state elided.
-/

namespace Libros

/-! ## The Book data model (`internal/models/book.go`)

`models.BookType` is a Go string type, so book types are modelled as
strings.  `models.Book` carries id, title, author, type, notes and the
two timestamps. -/

/-- The four book type constants of `internal/models/book.go`
(`Paperback`, `Hardback`, `Audio`, `Digital`), in the order of the
`bookTypes` slice built by `NewAddBookModel` / `NewEditModel`. -/
def bookTypes : List String := ["paperback", "hardback", "audio", "digital"]

/-- `models.Book`: one row of the `books` table.  Timestamps are
abstract instants (naturals). -/
structure Book where
  id : Nat
  title : String
  author : String
  type : String
  notes : String
  createdAt : Nat
  updatedAt : Nat
deriving Repr, DecidableEq

/-! ## Go's `strings.TrimSpace`

`strings.TrimSpace` removes leading and trailing Unicode white space.
We model the white-space predicate on the characters that actually occur
in terminal input (the Latin-1 range of `unicode.IsSpace`). -/

/-- `unicode.IsSpace` restricted to Latin-1: space, `\t`, `\n`, vertical
tab, form feed, `\r`, NEL (U+0085) and NBSP (U+00A0). -/
def goIsSpace (c : Char) : Bool :=
  c = ' ' || c = '\t' || c = '\n' || c = Char.ofNat 11 || c = Char.ofNat 12 ||
    c = '\r' || c = Char.ofNat 0x85 || c = Char.ofNat 0xA0

/-- `strings.TrimSpace`: drop white space from both ends of the string. -/
def trimSpace (s : String) : String :=
  ⟨((s.data.dropWhile goIsSpace).reverse.dropWhile goIsSpace).reverse⟩

/-! ## The record store (`internal/database/database.go`)

The `books` SQLite table is modelled as a list of rows in insertion
(rowid) order plus the next autoincrement id.  SQL errors cannot occur
in the in-memory model, so the error type distinguishes the validation
errors produced by `SaveBook`/`UpdateBook` before any write from
storage errors (never produced here). -/

/-- The two error kinds of the store API: validation errors raised
before any write, and storage errors propagated from SQLite. -/
inductive DBError where
  | validationError (msg : String)
  | storageError (msg : String)
deriving Repr, DecidableEq

/-- The state of the `books` table: rows in insertion order, plus the
next `AUTOINCREMENT` id. -/
structure DBState where
  books : List Book
  nextId : Nat
deriving Repr, DecidableEq

/-- A freshly created database (`database.New` on a new file). -/
def initialDB : DBState := { books := [], nextId := 1 }

/-- The `DEFAULT 'paperback'` of the `type` column in the schema of
`createTable`. -/
def typeColumnDefault : String := "paperback"

/-- One row inserted by
`INSERT INTO books (title, author, type, notes) VALUES (?, ?, ?, ?)`:
the store assigns the id and sets both timestamps to the current time;
an INSERT that omits the `type` column (`type? = none`) stores the
schema default `'paperback'`. -/
def insertRow (st : DBState) (title author : String) (type? : Option String)
    (notes : String) (now : Nat) : DBState :=
  { books := st.books ++
      [{ id := st.nextId, title := title, author := author,
         type := type?.getD typeColumnDefault, notes := notes,
         createdAt := now, updatedAt := now }],
    nextId := st.nextId + 1 }

/-- `DB.SaveBook`: trim all string inputs, reject an empty trimmed title
or author before any write, otherwise insert a new row. -/
def SaveBook (st : DBState) (title author bookType notes : String) (now : Nat) :
    DBState × Option DBError :=
  let title := trimSpace title
  let author := trimSpace author
  let notes := trimSpace notes
  if title = "" ∨ author = "" then
    (st, some (.validationError "title, author, and type are required"))
  else
    (insertRow st title author (some bookType) notes now, none)

/-- Insert a row into a list sorted by `created_at` descending, after any
rows with the same key (stable). -/
def sortedInsertDesc (b : Book) : List Book → List Book
  | [] => [b]
  | c :: cs => if c.createdAt < b.createdAt then b :: c :: cs else c :: sortedInsertDesc b cs

/-- Stable sort by `created_at` descending, modelling
`ORDER BY created_at DESC`. -/
def sortByCreatedDesc : List Book → List Book
  | [] => []
  | b :: bs => sortedInsertDesc b (sortByCreatedDesc bs)

/-- `DB.LoadBooks`:
`SELECT id, title, author, type, notes, created_at, updated_at FROM books
ORDER BY created_at DESC`. -/
def LoadBooks (st : DBState) : List Book :=
  sortByCreatedDesc st.books

/-- The `SET` clause of `UpdateBook`: replace all mutable fields and
refresh `updated_at`; `id` and `created_at` are untouched. -/
def setClause (b : Book) (title author bookType notes : String) (now : Nat) : Book :=
  { b with title := title, author := author, type := bookType,
           notes := notes, updatedAt := now }

/-- `DB.UpdateBook`: trim and validate exactly as `SaveBook`, then
`UPDATE books SET title = ?, author = ?, type = ?, notes = ?,
updated_at = CURRENT_TIMESTAMP WHERE id = ?`.  A nonexistent id affects
no row and is not an error. -/
def UpdateBook (st : DBState) (id : Nat) (title author bookType notes : String)
    (now : Nat) : DBState × Option DBError :=
  let title := trimSpace title
  let author := trimSpace author
  let notes := trimSpace notes
  if title = "" ∨ author = "" then
    (st, some (.validationError "title, author, and type are required"))
  else
    ({ st with books := st.books.map (fun b =>
        if b.id = id then setClause b title author bookType notes now else b) }, none)

/-- `DB.DeleteBook`: `DELETE FROM books WHERE id = ?`; deleting a
nonexistent id affects no row and is not an error. -/
def DeleteBook (st : DBState) (id : Nat) : DBState × Option DBError :=
  ({ st with books := st.books.filter (fun b => ¬ b.id = id) }, none)

/-- `DB.GetBookCount`: `SELECT COUNT(*) FROM books`. -/
def GetBookCount (st : DBState) : Nat :=
  st.books.length

/-! ### Ordering lemmas for `LoadBooks` -/

/-- `sortedInsertDesc` produces a permutation of consing. -/
theorem sortedInsertDesc_perm (b : Book) (l : List Book) :
    List.Perm (sortedInsertDesc b l) (b :: l) := by
  induction l with
  | nil => simp [sortedInsertDesc]
  | cons c cs ih =>
    simp only [sortedInsertDesc]
    split
    · exact List.Perm.refl _
    · exact ((ih.cons c).trans (List.Perm.swap b c cs))

/-- The sorted view is a permutation of the table. -/
theorem sortByCreatedDesc_perm (l : List Book) :
    List.Perm (sortByCreatedDesc l) l := by
  induction l with
  | nil => exact List.Perm.refl _
  | cons b bs ih =>
    exact (sortedInsertDesc_perm b (sortByCreatedDesc bs)).trans (ih.cons b)

/-- Membership in the sorted view is membership in the table. -/
theorem mem_sortByCreatedDesc {b : Book} {l : List Book} :
    b ∈ sortByCreatedDesc l ↔ b ∈ l :=
  (sortByCreatedDesc_perm l).mem_iff

/-- A row strictly newer than every row of the table sorts to the front. -/
theorem sortByCreatedDesc_append_newest (l : List Book) (b : Book)
    (h : ∀ c ∈ l, c.createdAt < b.createdAt) :
    sortByCreatedDesc (l ++ [b]) = b :: sortByCreatedDesc l := by
  induction l with
  | nil => simp [sortByCreatedDesc, sortedInsertDesc]
  | cons x xs ih =>
    have hx : x.createdAt < b.createdAt := h x (List.mem_cons_self x xs)
    have hxs : ∀ c ∈ xs, c.createdAt < b.createdAt :=
      fun c hc => h c (List.mem_cons_of_mem x hc)
    have hne : ¬ b.createdAt < x.createdAt := by omega
    calc sortByCreatedDesc ((x :: xs) ++ [b])
        = sortedInsertDesc x (sortByCreatedDesc (xs ++ [b])) := rfl
      _ = sortedInsertDesc x (b :: sortByCreatedDesc xs) := by rw [ih hxs]
      _ = b :: sortedInsertDesc x (sortByCreatedDesc xs) := by
            simp [sortedInsertDesc, hne]
      _ = b :: sortByCreatedDesc (x :: xs) := rfl

/-! ## Claims C1–C4: the record store -/

/-- **C1.** For every title and author whose trimmed values are non-empty
and at most 255 characters, `SaveBook` followed by `LoadBooks` yields
exactly one new record — the head of the newest-first listing — whose
title, author and notes are the trimmed inputs and whose type is the
given type; and an insert that leaves the `type` column unspecified
stores the schema default `paperback`.  (`now` is fresh: the clock is
past every existing row's creation instant.) -/
theorem saveBook_loadBooks (st : DBState) (title author bookType notes : String)
    (now : Nat)
    (htitle : ¬ trimSpace title = "") (hauthor : ¬ trimSpace author = "")
    (htlen : (trimSpace title).length ≤ 255) (halen : (trimSpace author).length ≤ 255)
    (hfresh : ∀ b ∈ st.books, b.createdAt < now) :
    (SaveBook st title author bookType notes now).2 = none ∧
    LoadBooks (SaveBook st title author bookType notes now).1 =
      { id := st.nextId, title := trimSpace title, author := trimSpace author,
        type := bookType, notes := trimSpace notes,
        createdAt := now, updatedAt := now } :: LoadBooks st ∧
    (insertRow st (trimSpace title) (trimSpace author) none (trimSpace notes) now).books =
      st.books ++
        [{ id := st.nextId, title := trimSpace title, author := trimSpace author,
           type := "paperback", notes := trimSpace notes,
           createdAt := now, updatedAt := now }] := by
  have hcond : ¬ (trimSpace title = "" ∨ trimSpace author = "") := by
    intro h; rcases h with h | h
    · exact htitle h
    · exact hauthor h
  refine ⟨?_, ?_, ?_⟩
  · simp [SaveBook, hcond]
  · simp only [SaveBook, if_neg hcond, LoadBooks, insertRow]
    exact sortByCreatedDesc_append_newest st.books _ (by exact hfresh)
  · rfl

/-- Witness for `saveBook_loadBooks` at a concrete store and inputs. -/
theorem saveBook_loadBooks_witness :
    let st : DBState :=
      { books := [{ id := 1, title := "A", author := "B", type := "paperback",
                    notes := "", createdAt := 3, updatedAt := 3 }], nextId := 2 }
    (¬ trimSpace " Dune " = "") ∧ (¬ trimSpace "Frank Herbert" = "") ∧
    (trimSpace " Dune ").length ≤ 255 ∧ (trimSpace "Frank Herbert").length ≤ 255 ∧
    (∀ b ∈ st.books, b.createdAt < 7) ∧
    ((SaveBook st " Dune " "Frank Herbert" "digital" " notes " 7).2 = none ∧
      LoadBooks (SaveBook st " Dune " "Frank Herbert" "digital" " notes " 7).1 =
        { id := 2, title := trimSpace " Dune ", author := trimSpace "Frank Herbert",
          type := "digital", notes := trimSpace " notes ",
          createdAt := 7, updatedAt := 7 } :: LoadBooks st ∧
      (insertRow st (trimSpace " Dune ") (trimSpace "Frank Herbert") none
          (trimSpace " notes ") 7).books =
        st.books ++
          [{ id := 2, title := trimSpace " Dune ", author := trimSpace "Frank Herbert",
             type := "paperback", notes := trimSpace " notes ",
             createdAt := 7, updatedAt := 7 }]) :=
  ⟨by decide, by decide, by decide, by decide, by decide,
    saveBook_loadBooks _ " Dune " "Frank Herbert" "digital" " notes " 7
      (by decide) (by decide) (by decide) (by decide) (by decide)⟩

/-- **C2.** Whenever the trimmed title or the trimmed author is empty,
`SaveBook` returns a validation error without writing anything: the
store is returned unchanged and the row count is unchanged. -/
theorem saveBook_invalid (st : DBState) (title author bookType notes : String)
    (now : Nat) (h : trimSpace title = "" ∨ trimSpace author = "") :
    SaveBook st title author bookType notes now =
      (st, some (.validationError "title, author, and type are required")) ∧
    GetBookCount (SaveBook st title author bookType notes now).1 = GetBookCount st := by
  constructor
  · simp [SaveBook, h]
  · simp [SaveBook, h]

/-- Witness for `saveBook_invalid`: a whitespace-only title. -/
theorem saveBook_invalid_witness :
    (trimSpace "   " = "" ∨ trimSpace "Frank Herbert" = "") ∧
    (SaveBook initialDB "   " "Frank Herbert" "paperback" "" 1 =
      (initialDB, some (.validationError "title, author, and type are required")) ∧
    GetBookCount (SaveBook initialDB "   " "Frank Herbert" "paperback" "" 1).1 =
      GetBookCount initialDB) :=
  ⟨by decide, saveBook_invalid initialDB "   " "Frank Herbert" "paperback" "" 1 (by decide)⟩

/-- **C3.** Updating an existing id with valid inputs succeeds, and the
subsequent listing shows, for that id, exactly the updated row: the new
field values, an `updated_at` strictly past the prior one (the clock
having advanced), and an unchanged `created_at`. -/
theorem updateBook_loadBooks (st : DBState) (b : Book) (id : Nat)
    (title author bookType notes : String) (now : Nat)
    (hb : b ∈ st.books) (hid : b.id = id)
    (huniq : ∀ c ∈ st.books, c.id = id → c = b)
    (htitle : ¬ trimSpace title = "") (hauthor : ¬ trimSpace author = "")
    (hnow : b.updatedAt < now) :
    (UpdateBook st id title author bookType notes now).2 = none ∧
    setClause b (trimSpace title) (trimSpace author) bookType (trimSpace notes) now ∈
      LoadBooks (UpdateBook st id title author bookType notes now).1 ∧
    (∀ c ∈ LoadBooks (UpdateBook st id title author bookType notes now).1,
      c.id = id →
        c = setClause b (trimSpace title) (trimSpace author) bookType (trimSpace notes) now) ∧
    (setClause b (trimSpace title) (trimSpace author) bookType (trimSpace notes) now).createdAt
      = b.createdAt ∧
    b.updatedAt <
      (setClause b (trimSpace title) (trimSpace author) bookType (trimSpace notes) now).updatedAt := by
  have hcond : ¬ (trimSpace title = "" ∨ trimSpace author = "") := by
    intro h; rcases h with h | h
    · exact htitle h
    · exact hauthor h
  have hbooks : (UpdateBook st id title author bookType notes now).1.books =
      st.books.map (fun c =>
        if c.id = id then
          setClause c (trimSpace title) (trimSpace author) bookType (trimSpace notes) now
        else c) := by
    simp [UpdateBook, hcond]
  refine ⟨by simp [UpdateBook, hcond], ?_, ?_, rfl, hnow⟩
  · rw [LoadBooks, mem_sortByCreatedDesc, hbooks]
    have : setClause b (trimSpace title) (trimSpace author) bookType (trimSpace notes) now =
        (fun c => if c.id = id then
          setClause c (trimSpace title) (trimSpace author) bookType (trimSpace notes) now
        else c) b := by
      simp [hid]
    rw [this]
    exact List.mem_map_of_mem _ hb
  · intro c hc hcid
    rw [LoadBooks, mem_sortByCreatedDesc, hbooks] at hc
    rcases List.mem_map.mp hc with ⟨a, ha, rfl⟩
    by_cases haid : a.id = id
    · have hab : a = b := huniq a ha haid
      subst hab
      simp [haid]
    · simp only [if_neg haid] at hcid ⊢
      exact absurd hcid haid

/-- Witness for `updateBook_loadBooks` at a concrete store. -/
theorem updateBook_loadBooks_witness :
    let b : Book := { id := 1, title := "A", author := "B", type := "paperback",
                      notes := "", createdAt := 3, updatedAt := 3 }
    let st : DBState := { books := [b], nextId := 2 }
    (b ∈ st.books) ∧ (b.id = 1) ∧ (∀ c ∈ st.books, c.id = 1 → c = b) ∧
    (¬ trimSpace " X " = "") ∧ (¬ trimSpace "Y" = "") ∧ (b.updatedAt < 9) ∧
    ((UpdateBook st 1 " X " "Y" "digital" " n " 9).2 = none ∧
      setClause b (trimSpace " X ") (trimSpace "Y") "digital" (trimSpace " n ") 9 ∈
        LoadBooks (UpdateBook st 1 " X " "Y" "digital" " n " 9).1 ∧
      (∀ c ∈ LoadBooks (UpdateBook st 1 " X " "Y" "digital" " n " 9).1,
        c.id = 1 →
          c = setClause b (trimSpace " X ") (trimSpace "Y") "digital" (trimSpace " n ") 9) ∧
      (setClause b (trimSpace " X ") (trimSpace "Y") "digital" (trimSpace " n ") 9).createdAt
        = b.createdAt ∧
      b.updatedAt <
        (setClause b (trimSpace " X ") (trimSpace "Y") "digital" (trimSpace " n ") 9).updatedAt) :=
  ⟨by decide, by decide, by decide, by decide, by decide, by decide,
    updateBook_loadBooks _ _ 1 " X " "Y" "digital" " n " 9
      (by decide) (by decide) (by decide) (by decide) (by decide) (by decide)⟩

/-- **C4.** For an id present nowhere in the store, `UpdateBook` (with
valid inputs) and `DeleteBook` both succeed silently and leave the
stored records unchanged. -/
theorem update_delete_nonexistent (st : DBState) (id : Nat)
    (title author bookType notes : String) (now : Nat)
    (habsent : ∀ b ∈ st.books, ¬ b.id = id)
    (htitle : ¬ trimSpace title = "") (hauthor : ¬ trimSpace author = "") :
    UpdateBook st id title author bookType notes now = (st, none) ∧
    DeleteBook st id = (st, none) := by
  have hcond : ¬ (trimSpace title = "" ∨ trimSpace author = "") := by
    intro h; rcases h with h | h
    · exact htitle h
    · exact hauthor h
  have hmap : ∀ l : List Book, (∀ b ∈ l, ¬ b.id = id) →
      l.map (fun b =>
        if b.id = id then
          setClause b (trimSpace title) (trimSpace author) bookType (trimSpace notes) now
        else b) = l := by
    intro l hl
    induction l with
    | nil => rfl
    | cons b bs ih =>
      have h1 : ¬ b.id = id := hl b (List.mem_cons_self b bs)
      have h2 : ∀ c ∈ bs, ¬ c.id = id := fun c hc => hl c (List.mem_cons_of_mem b hc)
      simp only [List.map_cons, if_neg h1, ih h2]
  have hfilter : ∀ l : List Book, (∀ b ∈ l, ¬ b.id = id) →
      l.filter (fun b => ¬ b.id = id) = l := by
    intro l hl
    induction l with
    | nil => rfl
    | cons b bs ih =>
      have h1 : ¬ b.id = id := hl b (List.mem_cons_self b bs)
      have h2 : ∀ c ∈ bs, ¬ c.id = id := fun c hc => hl c (List.mem_cons_of_mem b hc)
      have hcons : List.filter (fun b => ¬ b.id = id) (b :: bs) =
          b :: List.filter (fun b => ¬ b.id = id) bs := by
        simp [List.filter_cons, h1]
      rw [hcons, ih h2]
  constructor
  · simp [UpdateBook, hcond, hmap st.books habsent]
  · have hd : DeleteBook st id =
        ({ st with books := st.books.filter (fun b => ¬ b.id = id) }, none) := rfl
    rw [hd, hfilter st.books habsent]

/-! ## Screens and messages

`models.Screen` (revision with the utilities/export/backup screens) and
the Bubble Tea messages of `internal/messages/messages.go` plus the
`SwitchScreenMsg` of the backup/export screens.  Key events are the
keystrokes the application distinguishes; every other key is a plain
character delivered to the focused text widget. -/

/-- `models.Screen`. -/
inductive Screen where
  | menu | addBook | listBooks | bookDetail | editBook
  | utilities | exportScreen | backup
deriving Repr, DecidableEq

/-- A keystroke, as discriminated by `msg.String()` in the Go code. -/
inductive Key where
  | tab | shiftTab | enter | up | down | left | right | esc
  | ctrlA | ctrlE | ctrlC
  | charKey (c : Char)
deriving Repr, DecidableEq

/-- A Bubble Tea message: a key event, one of the typed completion
messages of `internal/messages/messages.go` (errors modelled by their
message string), or a `SwitchScreenMsg`. -/
inductive Msg where
  | keyMsg (k : Key)
  | saveMsg (err : Option String)
  | updateMsg (err : Option String)
  | deleteMsg (err : Option String)
  | loadBooksMsg (books : List Book) (err : Option String)
  | backupMsg (err : Option String)
  | switchScreenMsg (s : Screen)
deriving Repr, DecidableEq

/-- Character insertion into a `textinput`/`textarea` holding `v` with
character limit `limit`: insertion at the (end-positioned) cursor, with
insertion beyond the limit silently rejected. -/
def pushLimited (limit : Nat) (v : String) (c : Char) : String :=
  if v.length < limit then v.push c else v

/-- `m.selectedType--` followed by the wrap to `len(m.bookTypes) - 1`. -/
def cycleTypeBack (t : Int) : Int :=
  let t := t - 1
  if t < 0 then (bookTypes.length : Int) - 1 else t

/-- `m.selectedType++` followed by the wrap to `0`. -/
def cycleTypeFwd (t : Int) : Int :=
  let t := t + 1
  if t ≥ (bookTypes.length : Int) then 0 else t

/-! ## The Add Book form (`AddBookModel`, revision with the type selector)

Slots: `0` title, `1` author, `2` book type selector, `3` notes,
`4` save button (`len(m.inputs) = 2`). -/

/-- The state of `AddBookModel`: the values held by the two text inputs
and the notes textarea, the selector index, the focus index, the pending
error and the saved flag. -/
structure AddBookForm where
  titleVal : String
  authorVal : String
  notesVal : String
  selectedType : Int
  focused : Int
  err : Option String
  saved : Bool
deriving Repr, DecidableEq

/-- `NewAddBookModel`: empty fields, first type selected, title focused. -/
def initialAddBookForm : AddBookForm :=
  { titleVal := "", authorVal := "", notesVal := "", selectedType := 0,
    focused := 0, err := none, saved := false }

/-- `AddBookModel.updateInputs` for a key: only the focused text widget
consumes a character (title and author have `CharLimit = 255`, the notes
textarea has `CharLimit = 1000`); every other key only moves a cursor. -/
def addUpdateInputs (m : AddBookForm) (k : Key) : AddBookForm :=
  match k with
  | .charKey c =>
    if m.focused = 0 then { m with titleVal := pushLimited 255 m.titleVal c }
    else if m.focused = 1 then { m with authorVal := pushLimited 255 m.authorVal c }
    else if m.focused = 3 then { m with notesVal := pushLimited 1000 m.notesVal c }
    else m
  | _ => m

/-- The `tea.KeyMsg` branch of `AddBookModel.Update`. -/
def addKeyUpdate (m : AddBookForm) (k : Key) : AddBookForm × Screen :=
  if k = .esc then
    ({ m with err := none, saved := false }, .menu)
  else if k = .ctrlA ∨ k = .ctrlE then
    (m, .addBook)
  else if k = .tab ∨ k = .shiftTab ∨ k = .enter ∨ k = .up ∨ k = .down then
    if k = .enter ∧ m.focused = 2 + 2 then
      (m, .addBook)
    else if m.focused = 2 ∧ (k = .tab ∨ k = .shiftTab) then
      ({ m with selectedType :=
          if k = .shiftTab then cycleTypeBack m.selectedType
          else cycleTypeFwd m.selectedType }, .addBook)
    else
      let f := if k = .up then m.focused - 1
               else if k = .down ∨ k = .enter then m.focused + 1
               else m.focused
      let f := if f ≥ 2 + 3 then 0 else if f < 0 then 2 + 2 else f
      ({ m with focused := f }, .addBook)
  else if k = .left ∨ k = .right then
    if m.focused = 2 then
      ({ m with selectedType :=
          if k = .left then cycleTypeBack m.selectedType
          else cycleTypeFwd m.selectedType }, .addBook)
    else
      (addUpdateInputs m k, .addBook)
  else
    (addUpdateInputs m k, .addBook)

/-- `AddBookModel.Update`. -/
def addUpdate (m : AddBookForm) (msg : Msg) : AddBookForm × Screen :=
  match msg with
  | .keyMsg k => addKeyUpdate m k
  | .saveMsg err =>
    match err with
    | some e => ({ m with err := some e }, .addBook)
    | none =>
      ({ m with saved := true, titleVal := "", authorVal := "", notesVal := "",
                focused := 0 }, .addBook)
  | _ => (m, .addBook)

/-! ## The Edit Book form (`internal/ui/screens/edit.go`)

Slots: `0` title, `1` author, `2` book type selector, `3` notes,
`4` update button (`len(m.inputs) = 2`).  This revision cycles the
selector with `Left`/`Right` only; `Tab`/`Shift+Tab` always navigate. -/

/-- The state of `EditModel`: field values, selector index, focus index,
pending error, and the book being edited. -/
structure EditBookForm where
  titleVal : String
  authorVal : String
  notesVal : String
  selectedType : Int
  focused : Int
  err : Option String
  selectedBook : Option Book
deriving Repr, DecidableEq

/-- `EditModel.updateInputs` for a key (same widget limits as Add). -/
def editUpdateInputs (m : EditBookForm) (k : Key) : EditBookForm :=
  match k with
  | .charKey c =>
    if m.focused = 0 then { m with titleVal := pushLimited 255 m.titleVal c }
    else if m.focused = 1 then { m with authorVal := pushLimited 255 m.authorVal c }
    else if m.focused = 3 then { m with notesVal := pushLimited 1000 m.notesVal c }
    else m
  | _ => m

/-- The `tea.KeyMsg` branch of `EditModel.Update`.  In this revision the
navigation case handles `tab`, `shift+tab`, `enter`, `up`, `down`,
`left` and `right` together: `up`/`shift+tab` move backward and every
other navigation key moves forward, except that `left`/`right` on the
selector slot cycle the type without moving focus, and `enter` on the
update button submits. -/
def editKeyUpdate (m : EditBookForm) (k : Key) : EditBookForm × Screen :=
  if k = .esc then
    ({ m with err := none }, .bookDetail)
  else if k = .ctrlA ∨ k = .ctrlE then
    (m, .editBook)
  else if k = .tab ∨ k = .shiftTab ∨ k = .enter ∨ k = .up ∨ k = .down ∨
      k = .left ∨ k = .right then
    if k = .enter ∧ m.focused = 2 + 2 then
      (m, .editBook)
    else if m.focused = 2 ∧ (k = .left ∨ k = .right) then
      ({ m with selectedType :=
          if k = .left then cycleTypeBack m.selectedType
          else cycleTypeFwd m.selectedType }, .editBook)
    else
      let f := if k = .up ∨ k = .shiftTab then m.focused - 1 else m.focused + 1
      let f := if f > 2 + 2 then 0 else if f < 0 then 2 + 2 else f
      ({ m with focused := f }, .editBook)
  else
    (editUpdateInputs m k, .editBook)

/-- `EditModel.Update`.  On a successful update the submitted values are
copied back onto the selected book and the screen returns to the detail
view. -/
def editUpdate (m : EditBookForm) (msg : Msg) : EditBookForm × Screen :=
  match msg with
  | .keyMsg k => editKeyUpdate m k
  | .updateMsg err =>
    match err with
    | some e => ({ m with err := some e }, .editBook)
    | none =>
      ({ m with selectedBook := m.selectedBook.map (fun b =>
          { b with title := m.titleVal, author := m.authorVal,
                   type := bookTypes.getD m.selectedType.toNat typeColumnDefault,
                   notes := m.notesVal }) }, .bookDetail)
  | _ => (m, .editBook)

/-! ## Claim C5: focus wraparound -/

/-- A `down` keystroke on the Add form always navigates: the focus index
advances by one modulo the 5 slots, and nothing else changes. -/
theorem addKeyUpdate_down (m : AddBookForm) (h0 : 0 ≤ m.focused) (h4 : m.focused < 5) :
    addKeyUpdate m .down = ({ m with focused := (m.focused + 1) % 5 }, .addBook) := by
  obtain ⟨tv, av, nv, t, f, e, s⟩ := m
  simp only [addKeyUpdate]
  norm_num
  split_ifs <;> simp_all <;> omega

/-- An `up` keystroke on the Add form always navigates: the focus index
retreats by one modulo the 5 slots. -/
theorem addKeyUpdate_up (m : AddBookForm) (h0 : 0 ≤ m.focused) (h4 : m.focused < 5) :
    addKeyUpdate m .up = ({ m with focused := (m.focused - 1 + 5) % 5 }, .addBook) := by
  obtain ⟨tv, av, nv, t, f, e, s⟩ := m
  simp only [addKeyUpdate]
  norm_num
  split_ifs <;> simp_all <;> omega

/-- A `down` keystroke on the Edit form always navigates forward modulo
the 5 slots. -/
theorem editKeyUpdate_down (m : EditBookForm) (h0 : 0 ≤ m.focused) (h4 : m.focused < 5) :
    editKeyUpdate m .down = ({ m with focused := (m.focused + 1) % 5 }, .editBook) := by
  obtain ⟨tv, av, nv, t, f, e, b⟩ := m
  simp only [editKeyUpdate]
  norm_num
  split_ifs <;> simp_all <;> omega

/-- An `up` keystroke on the Edit form always navigates backward modulo
the 5 slots. -/
theorem editKeyUpdate_up (m : EditBookForm) (h0 : 0 ≤ m.focused) (h4 : m.focused < 5) :
    editKeyUpdate m .up = ({ m with focused := (m.focused - 1 + 5) % 5 }, .editBook) := by
  obtain ⟨tv, av, nv, t, f, e, b⟩ := m
  simp only [editKeyUpdate]
  norm_num
  split_ifs <;> simp_all <;> omega

/-- Iterating forward navigation on the Edit form adds the step count to
the focus index modulo the 5 slots. -/
theorem editDown_iterate (n : Nat) (m : EditBookForm)
    (h0 : 0 ≤ m.focused) (h4 : m.focused < 5) :
    (fun m' : EditBookForm => (editUpdate m' (.keyMsg .down)).1)^[n] m =
      { m with focused := (m.focused + n) % 5 } := by
  induction n generalizing m with
  | zero =>
    have hf : (m.focused + (0 : Nat)) % 5 = m.focused := by
      push_cast; omega
    have hf2 : m.focused % 5 = m.focused := by omega
    simp [hf, hf2]
  | succ n ih =>
    rw [Function.iterate_succ_apply]
    have hstep : (editUpdate m (.keyMsg .down)).1 = { m with focused := (m.focused + 1) % 5 } := by
      rw [show editUpdate m (.keyMsg .down) = editKeyUpdate m .down from rfl,
        editKeyUpdate_down m h0 h4]
    rw [hstep, ih { m with focused := (m.focused + 1) % 5 }
      (by show (0:Int) ≤ (m.focused + 1) % 5; omega)
      (by show (m.focused + 1) % 5 < 5; omega)]
    have h : ((m.focused + 1) % 5 + (n : Int)) % 5 = (m.focused + ((n : Nat) + 1 : Nat)) % 5 := by
      push_cast; omega
    show ({ m with focused := ((m.focused + 1) % 5 + (n : Int)) % 5 } : EditBookForm) = _
    rw [h]

/-- Iterating forward navigation on the Add form adds the step count to
the focus index modulo the 5 slots. -/
theorem addDown_iterate (n : Nat) (m : AddBookForm)
    (h0 : 0 ≤ m.focused) (h4 : m.focused < 5) :
    (fun m' : AddBookForm => (addUpdate m' (.keyMsg .down)).1)^[n] m =
      { m with focused := (m.focused + n) % 5 } := by
  induction n generalizing m with
  | zero =>
    have hf : (m.focused + (0 : Nat)) % 5 = m.focused := by
      push_cast; omega
    have hf2 : m.focused % 5 = m.focused := by omega
    simp [hf, hf2]
  | succ n ih =>
    rw [Function.iterate_succ_apply]
    have hstep : (addUpdate m (.keyMsg .down)).1 = { m with focused := (m.focused + 1) % 5 } := by
      rw [show addUpdate m (.keyMsg .down) = addKeyUpdate m .down from rfl,
        addKeyUpdate_down m h0 h4]
    rw [hstep, ih { m with focused := (m.focused + 1) % 5 }
      (by show (0:Int) ≤ (m.focused + 1) % 5; omega)
      (by show (m.focused + 1) % 5 < 5; omega)]
    have h : ((m.focused + 1) % 5 + (n : Int)) % 5 = (m.focused + ((n : Nat) + 1 : Nat)) % 5 := by
      push_cast; omega
    show ({ m with focused := ((m.focused + 1) % 5 + (n : Int)) % 5 } : AddBookForm) = _
    rw [h]

/-- **C5.** In both form screens (Add and Edit, each with `N = 5` focus
slots), one backward navigation from slot 0 lands on slot `N-1`, one
forward navigation from slot `N-1` lands on slot 0, forward navigation
is addition of 1 modulo `N` (not clamping), and `N` consecutive forward
navigations return the focus index to the starting slot. -/
theorem focus_wraparound_modulo (me : EditBookForm) (ma : AddBookForm)
    (he0 : 0 ≤ me.focused) (he4 : me.focused < 5)
    (ha0 : 0 ≤ ma.focused) (ha4 : ma.focused < 5) :
    (me.focused = 0 → ((editUpdate me (.keyMsg .up)).1).focused = 5 - 1) ∧
    (me.focused = 5 - 1 → ((editUpdate me (.keyMsg .down)).1).focused = 0) ∧
    (ma.focused = 0 → ((addUpdate ma (.keyMsg .up)).1).focused = 5 - 1) ∧
    (ma.focused = 5 - 1 → ((addUpdate ma (.keyMsg .down)).1).focused = 0) ∧
    ((editUpdate me (.keyMsg .down)).1).focused = (me.focused + 1) % 5 ∧
    ((addUpdate ma (.keyMsg .down)).1).focused = (ma.focused + 1) % 5 ∧
    ((fun m' : EditBookForm => (editUpdate m' (.keyMsg .down)).1)^[5] me).focused = me.focused ∧
    ((fun m' : AddBookForm => (addUpdate m' (.keyMsg .down)).1)^[5] ma).focused = ma.focused := by
  have heu : editUpdate me (.keyMsg .up) = editKeyUpdate me .up := rfl
  have hed : editUpdate me (.keyMsg .down) = editKeyUpdate me .down := rfl
  have hau : addUpdate ma (.keyMsg .up) = addKeyUpdate ma .up := rfl
  have had : addUpdate ma (.keyMsg .down) = addKeyUpdate ma .down := rfl
  refine ⟨?_, ?_, ?_, ?_, ?_, ?_, ?_, ?_⟩
  · intro h; rw [heu, editKeyUpdate_up me he0 he4]
    show (me.focused - 1 + 5) % 5 = 5 - 1
    omega
  · intro h; rw [hed, editKeyUpdate_down me he0 he4]
    show (me.focused + 1) % 5 = 0
    omega
  · intro h; rw [hau, addKeyUpdate_up ma ha0 ha4]
    show (ma.focused - 1 + 5) % 5 = 5 - 1
    omega
  · intro h; rw [had, addKeyUpdate_down ma ha0 ha4]
    show (ma.focused + 1) % 5 = 0
    omega
  · rw [hed, editKeyUpdate_down me he0 he4]
  · rw [had, addKeyUpdate_down ma ha0 ha4]
  · rw [editDown_iterate 5 me he0 he4]
    show (me.focused + (5 : Nat)) % 5 = me.focused
    push_cast; omega
  · rw [addDown_iterate 5 ma ha0 ha4]
    show (ma.focused + (5 : Nat)) % 5 = ma.focused
    push_cast; omega

/-- Witness for `focus_wraparound_modulo` at concrete form states. -/
theorem focus_wraparound_modulo_witness :
    let me : EditBookForm :=
      { titleVal := "A", authorVal := "B", notesVal := "", selectedType := 1,
        focused := 0, err := none, selectedBook := none }
    let ma : AddBookForm := initialAddBookForm
    ((0:Int) ≤ me.focused ∧ me.focused < 5 ∧ (0:Int) ≤ ma.focused ∧ ma.focused < 5) ∧
    ((me.focused = 0 → ((editUpdate me (.keyMsg .up)).1).focused = 5 - 1) ∧
     (me.focused = 5 - 1 → ((editUpdate me (.keyMsg .down)).1).focused = 0) ∧
     (ma.focused = 0 → ((addUpdate ma (.keyMsg .up)).1).focused = 5 - 1) ∧
     (ma.focused = 5 - 1 → ((addUpdate ma (.keyMsg .down)).1).focused = 0) ∧
     ((editUpdate me (.keyMsg .down)).1).focused = (me.focused + 1) % 5 ∧
     ((addUpdate ma (.keyMsg .down)).1).focused = (ma.focused + 1) % 5 ∧
     ((fun m' : EditBookForm => (editUpdate m' (.keyMsg .down)).1)^[5] me).focused = me.focused ∧
     ((fun m' : AddBookForm => (addUpdate m' (.keyMsg .down)).1)^[5] ma).focused = ma.focused) :=
  ⟨⟨by decide, by decide, by decide, by decide⟩,
    focus_wraparound_modulo _ _ (by decide) (by decide) (by decide) (by decide)⟩

/-! ## Claim C6: selector cycling -/

/-- Under the selector bounds, the forward cycle is addition modulo the
number of choices. -/
theorem cycleTypeFwd_mod (t : Int) (h0 : 0 ≤ t) (h4 : t < 4) :
    cycleTypeFwd t = (t + 1) % 4 := by
  simp only [cycleTypeFwd, bookTypes, List.length_cons, List.length_nil]
  norm_num
  split_ifs <;> omega

/-- Under the selector bounds, the backward cycle is subtraction modulo
the number of choices. -/
theorem cycleTypeBack_mod (t : Int) (h0 : 0 ≤ t) (h4 : t < 4) :
    cycleTypeBack t = (t - 1 + 4) % 4 := by
  simp only [cycleTypeBack, bookTypes, List.length_cons, List.length_nil]
  norm_num
  split_ifs <;> omega

/-- `right` on the Edit form's selector slot cycles the type forward and
changes nothing else. -/
theorem editKeyUpdate_right_selector (m : EditBookForm) (hf : m.focused = 2) :
    editKeyUpdate m .right = ({ m with selectedType := cycleTypeFwd m.selectedType }, .editBook) := by
  obtain ⟨tv, av, nv, t, f, e, b⟩ := m
  simp only at hf
  subst hf
  simp [editKeyUpdate]

/-- `left` on the Edit form's selector slot cycles the type backward and
changes nothing else. -/
theorem editKeyUpdate_left_selector (m : EditBookForm) (hf : m.focused = 2) :
    editKeyUpdate m .left = ({ m with selectedType := cycleTypeBack m.selectedType }, .editBook) := by
  obtain ⟨tv, av, nv, t, f, e, b⟩ := m
  simp only at hf
  subst hf
  simp [editKeyUpdate]

/-- `right` on the Add form's selector slot cycles the type forward and
changes nothing else. -/
theorem addKeyUpdate_right_selector (m : AddBookForm) (hf : m.focused = 2) :
    addKeyUpdate m .right = ({ m with selectedType := cycleTypeFwd m.selectedType }, .addBook) := by
  obtain ⟨tv, av, nv, t, f, e, s⟩ := m
  simp only at hf
  subst hf
  simp [addKeyUpdate]

/-- `left` on the Add form's selector slot cycles the type backward and
changes nothing else. -/
theorem addKeyUpdate_left_selector (m : AddBookForm) (hf : m.focused = 2) :
    addKeyUpdate m .left = ({ m with selectedType := cycleTypeBack m.selectedType }, .addBook) := by
  obtain ⟨tv, av, nv, t, f, e, s⟩ := m
  simp only at hf
  subst hf
  simp [addKeyUpdate]

/-- `tab` on the Add form's selector slot cycles the type forward
(this revision supports Tab cycling on the selector) and changes
nothing else. -/
theorem addKeyUpdate_tab_selector (m : AddBookForm) (hf : m.focused = 2) :
    addKeyUpdate m .tab = ({ m with selectedType := cycleTypeFwd m.selectedType }, .addBook) := by
  obtain ⟨tv, av, nv, t, f, e, s⟩ := m
  simp only at hf
  subst hf
  simp [addKeyUpdate]

/-- `shift+tab` on the Add form's selector slot cycles the type backward
and changes nothing else. -/
theorem addKeyUpdate_shiftTab_selector (m : AddBookForm) (hf : m.focused = 2) :
    addKeyUpdate m .shiftTab = ({ m with selectedType := cycleTypeBack m.selectedType }, .addBook) := by
  obtain ⟨tv, av, nv, t, f, e, s⟩ := m
  simp only at hf
  subst hf
  simp [addKeyUpdate]

/-- Iterating `right` on the Edit form's selector slot adds the step
count to the choice index modulo the 4 choices, keeping focus on the
selector throughout. -/
theorem editRight_iterate (n : Nat) (m : EditBookForm) (hf : m.focused = 2)
    (h0 : 0 ≤ m.selectedType) (h4 : m.selectedType < 4) :
    (fun m' : EditBookForm => (editUpdate m' (.keyMsg .right)).1)^[n] m =
      { m with selectedType := (m.selectedType + n) % 4 } := by
  induction n generalizing m with
  | zero =>
    have hf1 : (m.selectedType + (0 : Nat)) % 4 = m.selectedType := by
      push_cast; omega
    have hf2 : m.selectedType % 4 = m.selectedType := by omega
    simp [hf1, hf2]
  | succ n ih =>
    rw [Function.iterate_succ_apply]
    have hstep : (editUpdate m (.keyMsg .right)).1 =
        { m with selectedType := (m.selectedType + 1) % 4 } := by
      rw [show editUpdate m (.keyMsg .right) = editKeyUpdate m .right from rfl,
        editKeyUpdate_right_selector m hf, cycleTypeFwd_mod m.selectedType h0 h4]
    rw [hstep, ih { m with selectedType := (m.selectedType + 1) % 4 }
      (by show m.focused = 2; exact hf)
      (by show (0:Int) ≤ (m.selectedType + 1) % 4; omega)
      (by show (m.selectedType + 1) % 4 < 4; omega)]
    have h : ((m.selectedType + 1) % 4 + (n : Int)) % 4 =
        (m.selectedType + ((n : Nat) + 1 : Nat)) % 4 := by
      push_cast; omega
    show ({ m with selectedType := ((m.selectedType + 1) % 4 + (n : Int)) % 4 } : EditBookForm) = _
    rw [h]

/-- **C6.** On the selector slot (focus index 2), `Left`/`Right` (and on
the Add form also `Tab`/`Shift+Tab`) change only the choice index,
advancing or retreating it modulo the 4 choices, and leave the focus
index and every field value unchanged (the whole rest of the state is
unchanged, and the screen does not transition); consequently 100
consecutive right-cycles land back on the original choice. -/
theorem selector_cycling (me : EditBookForm) (ma : AddBookForm)
    (hfe : me.focused = 2) (hfa : ma.focused = 2)
    (he0 : 0 ≤ me.selectedType) (he4 : me.selectedType < 4)
    (ha0 : 0 ≤ ma.selectedType) (ha4 : ma.selectedType < 4) :
    editUpdate me (.keyMsg .right) =
      ({ me with selectedType := (me.selectedType + 1) % 4 }, .editBook) ∧
    editUpdate me (.keyMsg .left) =
      ({ me with selectedType := (me.selectedType - 1 + 4) % 4 }, .editBook) ∧
    addUpdate ma (.keyMsg .right) =
      ({ ma with selectedType := (ma.selectedType + 1) % 4 }, .addBook) ∧
    addUpdate ma (.keyMsg .left) =
      ({ ma with selectedType := (ma.selectedType - 1 + 4) % 4 }, .addBook) ∧
    addUpdate ma (.keyMsg .tab) =
      ({ ma with selectedType := (ma.selectedType + 1) % 4 }, .addBook) ∧
    addUpdate ma (.keyMsg .shiftTab) =
      ({ ma with selectedType := (ma.selectedType - 1 + 4) % 4 }, .addBook) ∧
    ((fun m' : EditBookForm => (editUpdate m' (.keyMsg .right)).1)^[100] me).selectedType =
      me.selectedType := by
  refine ⟨?_, ?_, ?_, ?_, ?_, ?_, ?_⟩
  · rw [show editUpdate me (.keyMsg .right) = editKeyUpdate me .right from rfl,
      editKeyUpdate_right_selector me hfe, cycleTypeFwd_mod me.selectedType he0 he4]
  · rw [show editUpdate me (.keyMsg .left) = editKeyUpdate me .left from rfl,
      editKeyUpdate_left_selector me hfe, cycleTypeBack_mod me.selectedType he0 he4]
  · rw [show addUpdate ma (.keyMsg .right) = addKeyUpdate ma .right from rfl,
      addKeyUpdate_right_selector ma hfa, cycleTypeFwd_mod ma.selectedType ha0 ha4]
  · rw [show addUpdate ma (.keyMsg .left) = addKeyUpdate ma .left from rfl,
      addKeyUpdate_left_selector ma hfa, cycleTypeBack_mod ma.selectedType ha0 ha4]
  · rw [show addUpdate ma (.keyMsg .tab) = addKeyUpdate ma .tab from rfl,
      addKeyUpdate_tab_selector ma hfa, cycleTypeFwd_mod ma.selectedType ha0 ha4]
  · rw [show addUpdate ma (.keyMsg .shiftTab) = addKeyUpdate ma .shiftTab from rfl,
      addKeyUpdate_shiftTab_selector ma hfa, cycleTypeBack_mod ma.selectedType ha0 ha4]
  · rw [editRight_iterate 100 me hfe he0 he4]
    show (me.selectedType + (100 : Nat)) % 4 = me.selectedType
    push_cast; omega

/-- Witness for `selector_cycling` at concrete form states focused on
the selector slot. -/
theorem selector_cycling_witness :
    let me : EditBookForm :=
      { titleVal := "A", authorVal := "B", notesVal := "n", selectedType := 3,
        focused := 2, err := none, selectedBook := none }
    let ma : AddBookForm :=
      { titleVal := "T", authorVal := "U", notesVal := "", selectedType := 1,
        focused := 2, err := none, saved := false }
    (me.focused = 2 ∧ ma.focused = 2 ∧
      (0:Int) ≤ me.selectedType ∧ me.selectedType < 4 ∧
      (0:Int) ≤ ma.selectedType ∧ ma.selectedType < 4) ∧
    (editUpdate me (.keyMsg .right) =
        ({ me with selectedType := (me.selectedType + 1) % 4 }, .editBook) ∧
      editUpdate me (.keyMsg .left) =
        ({ me with selectedType := (me.selectedType - 1 + 4) % 4 }, .editBook) ∧
      addUpdate ma (.keyMsg .right) =
        ({ ma with selectedType := (ma.selectedType + 1) % 4 }, .addBook) ∧
      addUpdate ma (.keyMsg .left) =
        ({ ma with selectedType := (ma.selectedType - 1 + 4) % 4 }, .addBook) ∧
      addUpdate ma (.keyMsg .tab) =
        ({ ma with selectedType := (ma.selectedType + 1) % 4 }, .addBook) ∧
      addUpdate ma (.keyMsg .shiftTab) =
        ({ ma with selectedType := (ma.selectedType - 1 + 4) % 4 }, .addBook) ∧
      ((fun m' : EditBookForm => (editUpdate m' (.keyMsg .right)).1)^[100] me).selectedType =
        me.selectedType) :=
  ⟨⟨by decide, by decide, by decide, by decide, by decide, by decide⟩,
    selector_cycling _ _ (by decide) (by decide) (by decide) (by decide)
      (by decide) (by decide)⟩

/-! ## Claim C7: Add form save-completion handling -/

/-- **C7.** When the Add form receives the save-completion message:
on success it clears all field values, resets the focus index to 0 and
sets the saved flag, touching nothing else (in particular the selector
and any previous error are untouched, and the screen stays on the Add
form); on failure it stores the returned error and leaves everything
else — focus index and all field values included — unchanged. -/
theorem add_save_completion (m : AddBookForm) (e : String) :
    addUpdate m (.saveMsg none) =
      ({ m with saved := true, titleVal := "", authorVal := "", notesVal := "",
                focused := 0 }, .addBook) ∧
    addUpdate m (.saveMsg (some e)) = ({ m with err := some e }, .addBook) :=
  ⟨rfl, rfl⟩

/-! ## Claim C8: the soft-quit keystroke

The global override of `Model.Update` (`internal/ui/model.go`): `ctrl+c`
always quits; `q` quits unless the current screen is the Add or Edit
form.  The export flow (`internal/ui/screens/export.go`) additionally
handles `q` itself in every state, including the path-entry state. -/

/-- The global key override of `Model.Update`: `true` means the router
closes the database and terminates the process. -/
def globalKeyQuits (current : Screen) (k : Key) : Bool :=
  k = .ctrlC || (k = .charKey 'q' && !(current = .addBook) && !(current = .editBook))

/-- `ExportState`: the four states of the export flow. -/
inductive ExportState where
  | pathInput | formatSelection | exporting | showResult
deriving Repr, DecidableEq

/-- The state of `ExportScreen`. -/
structure ExportModel where
  state : ExportState
  pathInputVal : String
  exportPath : String
  formatIndex : Int
  status : String
  isError : Bool
  defaultExportsDir : String
  lastExportedFile : String
deriving Repr, DecidableEq

/-- The effect a screen update hands back to the Bubble Tea runtime:
nothing, `tea.Quit`, a `SwitchScreenCmd`, or a deferred export. -/
inductive ScreenCmd where
  | none
  | quit
  | switchScreen (s : Screen)
  | performExport (format : String)
deriving Repr, DecidableEq

/-- The filesystem facts `updatePathInput` consults: the home directory
(`os.UserHomeDir`) and the result of `validatePath` (an error message
when the directory is missing or not writable). -/
structure FsEnv where
  homeDir : Option String
  validatePathErr : String → Option String

/-- `NewExportScreen`: the flow starts in the path-entry state with an
empty path input. -/
def initialExportModel (defaultDir : String) : ExportModel :=
  { state := .pathInput, pathInputVal := "", exportPath := "", formatIndex := 0,
    status := "", isError := false, defaultExportsDir := defaultDir,
    lastExportedFile := "" }

/-- `ExportScreen.updatePathInput`: the key handler of the path-entry
state.  `enter` validates the path (empty input selects the default
directory; a relative path or a failed filesystem check sets an error
status); `esc` switches back to the utilities menu; `q` and `ctrl+c`
quit; every other key goes to the path text input (which has no
character limit).  In the `~`-expansion branch the `~` is the first
character, so replacing its first occurrence prepends the home
directory. -/
def updatePathInput (env : FsEnv) (s : ExportModel) (msg : Msg) :
    ExportModel × ScreenCmd :=
  match msg with
  | .keyMsg k =>
    if k = .enter then
      let inputPath := trimSpace s.pathInputVal
      if inputPath = "" then
        ({ s with exportPath := s.defaultExportsDir,
                  state := .formatSelection, status := "", isError := false }, .none)
      else if ¬ inputPath.startsWith "/" ∧ ¬ inputPath.startsWith "~" then
        ({ s with status := "Please enter an absolute path (starting with / or ~)",
                  isError := true }, .none)
      else
        let expanded : Except String String :=
          if inputPath.startsWith "~" then
            match env.homeDir with
            | Option.none => .error "Error getting home directory: "
            | some h => .ok (h ++ inputPath.drop 1)
          else .ok inputPath
        match expanded with
        | .error emsg => ({ s with status := emsg, isError := true }, .none)
        | .ok path =>
          match env.validatePathErr path with
          | some errText => ({ s with status := errText, isError := true }, .none)
          | Option.none =>
            ({ s with exportPath := path,
                      state := .formatSelection, status := "", isError := false }, .none)
    else if k = .esc then (s, .switchScreen .utilities)
    else if k = .charKey 'q' ∨ k = .ctrlC then (s, .quit)
    else
      match k with
      | .charKey c => ({ s with pathInputVal := s.pathInputVal.push c }, .none)
      | _ => (s, .none)
  | _ => (s, .none)

/-- **C8, counterexample.**  On the export path-entry screen the
soft-quit keystroke `q` does terminate the process, contradicting the
claim that it never terminates there: the global override of
`Model.Update` excludes only the Add and Edit screens, and the path
input's own handler also returns `tea.Quit` on `q`. -/
theorem q_quits_on_export_path_entry :
    globalKeyQuits .exportScreen (.charKey 'q') = true ∧
    (updatePathInput ⟨some "/home/user", fun _ => Option.none⟩
        (initialExportModel "/home/user/.libros/exports")
        (.keyMsg (.charKey 'q'))).2 = .quit :=
  ⟨rfl, rfl⟩

/-- **C8, amended.**  The soft-quit keystroke `q` terminates the process
(closing the store first) from every screen except the Add form and the
Edit form; in particular it terminates from the export path-entry
screen, where the screen's own handler also quits on `q`. -/
theorem q_quit_policy :
    (∀ s : Screen, globalKeyQuits s (.charKey 'q') = true ↔
      (¬ s = .addBook ∧ ¬ s = .editBook)) ∧
    (∀ (env : FsEnv) (st : ExportModel),
      (updatePathInput env st (.keyMsg (.charKey 'q'))).2 = .quit) := by
  constructor
  · intro s
    cases s <;> simp [globalKeyQuits]
  · intro env st
    simp [updatePathInput]

/-- Witness for `update_delete_nonexistent`: id 99 is absent. -/
theorem update_delete_nonexistent_witness :
    let st : DBState :=
      { books := [{ id := 1, title := "A", author := "B", type := "paperback",
                    notes := "", createdAt := 3, updatedAt := 3 }], nextId := 2 }
    (∀ b ∈ st.books, ¬ b.id = 99) ∧ (¬ trimSpace "T" = "") ∧ (¬ trimSpace "U" = "") ∧
    (UpdateBook st 99 "T" "U" "digital" "" 5 = (st, Option.none) ∧
      DeleteBook st 99 = (st, Option.none)) :=
  ⟨by decide, by decide, by decide,
    update_delete_nonexistent _ 99 "T" "U" "digital" "" 5
      (by decide) (by decide) (by decide)⟩

/-! ## The list screen (`ListBooksModel`, revision with scroll offset)

`Update` handles arrow/vim navigation with clamping, selection of the
indexed book on `enter`, the load-completion message (clamping the index
when the list shrinks) and the delete-completion message. -/

/-- The state of `ListBooksModel`. -/
structure ListBooksModel where
  books : List Book
  index : Int
  offset : Int
  pageSize : Int
  err : Option String
  deleted : Bool
deriving Repr, DecidableEq

/-- `NewListBooksModel`. -/
def initialListBooksModel : ListBooksModel :=
  { books := [], index := 0, offset := 0, pageSize := 3, err := none,
    deleted := false }

/-- `ListBooksModel.Update`.  Returns the updated model, the next
screen, and the selected book when navigating to the detail screen.
`&m.books[m.index]` is modelled by a guarded list lookup (the guard
failing corresponds to the index panic, unreachable under the index
invariant proved below). -/
def listUpdate (m : ListBooksModel) (msg : Msg) :
    ListBooksModel × Screen × Option Book :=
  match msg with
  | .keyMsg k =>
    if k = .esc then (m, .menu, none)
    else if k = .up ∨ k = .charKey 'k' then
      (if m.index > 0 then
        let i := m.index - 1
        { m with index := i, offset := if i < m.offset then i else m.offset }
      else m, .listBooks, none)
    else if k = .down ∨ k = .charKey 'j' then
      (if m.index < (m.books.length : Int) - 1 then
        let i := m.index + 1
        { m with index := i,
                 offset := if i ≥ m.offset + m.pageSize then i - m.pageSize + 1
                           else m.offset }
      else m, .listBooks, none)
    else if k = .enter then
      if 0 < m.books.length then
        (m, .bookDetail, if 0 ≤ m.index then m.books[m.index.toNat]? else none)
      else (m, .listBooks, none)
    else (m, .listBooks, none)
  | .loadBooksMsg books err =>
    (match err with
     | some e => { m with err := some e }
     | none =>
       if (books.length : Int) ≤ m.index ∧ 0 < books.length then
         { m with books := books, index := (books.length : Int) - 1 }
       else { m with books := books }, .listBooks, none)
  | .deleteMsg err =>
    (match err with
     | some e => { m with err := some e }
     | none => { m with deleted := true }, .listBooks, none)
  | _ => (m, .listBooks, none)

/-- `ListBooksModel.ClearDeleted`. -/
def listClearDeleted (m : ListBooksModel) : ListBooksModel :=
  { m with deleted := false }

/-- The list screen's index invariant: the index is never negative, and
is below the length whenever the list is non-empty. -/
def listInv (m : ListBooksModel) : Prop :=
  0 ≤ m.index ∧ (0 < m.books.length → m.index < (m.books.length : Int))

/-! ## The detail screen (`DetailModel`) -/

/-- The fixed `actions` slice of `NewDetailModel`. -/
def detailActions : List String := ["Edit Book", "Delete Book", "Back to List"]

/-- The state of `DetailModel`. -/
structure DetailModel where
  selectedBook : Option Book
  index : Int
  err : Option String
  updated : Bool
deriving Repr, DecidableEq

/-- `NewDetailModel`. -/
def initialDetailModel : DetailModel :=
  { selectedBook := none, index := 0, err := none, updated := false }

/-- `DetailModel.Update`: clamped navigation over the three actions;
`enter` executes the selected action ("Delete Book" dispatches the
delete command and stays on the detail screen); the update- and
delete-completion messages set flags or navigate back to the list. -/
def detailUpdate (m : DetailModel) (msg : Msg) : DetailModel × Screen :=
  match msg with
  | .keyMsg k =>
    if k = .esc then (m, .listBooks)
    else if k = .up ∨ k = .charKey 'k' then
      (if m.index > 0 then { m with index := m.index - 1 } else m, .bookDetail)
    else if k = .down ∨ k = .charKey 'j' then
      (if m.index < (detailActions.length : Int) - 1 then { m with index := m.index + 1 }
       else m, .bookDetail)
    else if k = .enter then
      let a := detailActions.getD m.index.toNat ""
      if a = "Edit Book" then (m, .editBook)
      else if a = "Delete Book" then (m, .bookDetail)
      else if a = "Back to List" then (m, .listBooks)
      else (m, .bookDetail)
    else (m, .bookDetail)
  | .updateMsg err =>
    (match err with
     | some e => { m with err := some e }
     | none => { m with updated := true }, .bookDetail)
  | .deleteMsg err =>
    match err with
    | some e => ({ m with err := some e }, .bookDetail)
    | none => (m, .listBooks)
  | _ => (m, .bookDetail)

/-- `DetailModel.SetBook`. -/
def detailSetBook (m : DetailModel) (b : Book) : DetailModel :=
  { m with selectedBook := some b, index := 0, err := none, updated := false }

/-- `DetailModel.ClearUpdated`. -/
def detailClearUpdated (m : DetailModel) : DetailModel :=
  { m with updated := false }

/-- `DetailModel.deleteBookCmd` dereferences `m.SelectedBook.ID` without
a nil check; the id it would pass to `DeleteBook`. -/
def deleteBookCmdId (m : DetailModel) : Option Nat :=
  m.selectedBook.map Book.id

/-! ## The menu (`MenuModel`) -/

/-- The state of `MenuModel`. -/
structure MenuModel where
  items : List String
  index : Int
deriving Repr, DecidableEq

/-- `MenuModel.updateMenuItems`: the "View Books" entry exists only when
the store is non-empty; the index is clamped to the new item count. -/
def menuRefreshItems (db : DBState) (m : MenuModel) : MenuModel :=
  let items := if 0 < GetBookCount db then ["Add Book", "View Books", "Quit"]
               else ["Add Book", "Quit"]
  let m := { m with items := items }
  if (items.length : Int) ≤ m.index then { m with index := (items.length : Int) - 1 }
  else m

/-- `NewMenuModel`. -/
def initialMenuModel (db : DBState) : MenuModel :=
  menuRefreshItems db { items := [], index := 0 }

/-- `MenuModel.Update` (key events only): clamped navigation; `enter`
selects "Add Book", "View Books" (which also dispatches the load
command) or "Quit" (which returns `tea.Quit` and stays on the menu). -/
def menuUpdate (m : MenuModel) (k : Key) : MenuModel × Screen :=
  if k = .up ∨ k = .charKey 'k' then
    (if m.index > 0 then { m with index := m.index - 1 } else m, .menu)
  else if k = .down ∨ k = .charKey 'j' then
    (if m.index < (m.items.length : Int) - 1 then { m with index := m.index + 1 }
     else m, .menu)
  else if k = .enter then
    let item := m.items.getD m.index.toNat ""
    if item = "Add Book" then (m, .addBook)
    else if item = "View Books" then (m, .listBooks)
    else (m, .menu)
  else (m, .menu)

/-! ## The backup screen (`BackupScreen`) -/

/-- The state of `BackupScreen` (its three fixed menu entries are
rendered in fullwidth characters). -/
structure BackupModel where
  items : List String
  index : Int
  status : String
  isError : Bool
deriving Repr, DecidableEq

/-- `NewBackupScreen`. -/
def initialBackupModel : BackupModel :=
  { items := ["ＪＳＯＮ　Ｆｏｒｍａｔ", "Ｍａｒｋｄｏｗｎ　Ｆｏｒｍａｔ",
              "Ｂａｃｋ　ｔｏ　Ｍａｉｎ　Ｍｅｎｕ"],
    index := 0, status := "", isError := false }

/-- `BackupScreen.Update` (state changes only; the commands it returns —
`performBackup`, `SwitchScreenCmd(MenuScreen)`, `tea.Quit` — re-enter
the loop as messages). -/
def backupUpdate (m : BackupModel) (msg : Msg) : BackupModel :=
  match msg with
  | .keyMsg k =>
    if k = .up ∨ k = .charKey 'k' then
      (if m.index > 0 then { m with index := m.index - 1 } else m)
    else if k = .down ∨ k = .charKey 'j' then
      (if m.index < (m.items.length : Int) - 1 then { m with index := m.index + 1 } else m)
    else if k = .enter then
      (if m.items.getD m.index.toNat "" = "ＪＳＯＮ　Ｆｏｒｍａｔ" ∨
          m.items.getD m.index.toNat "" = "Ｍａｒｋｄｏｗｎ　Ｆｏｒｍａｔ" then
        { m with status := "" }
      else m)
    else m
  | .backupMsg err =>
    match err with
    | some e => { m with status := "Backup failed: " ++ e, isError := true }
    | none => { m with status := "Backup completed successfully!", isError := false }
  | _ => m

/-- `BackupScreen.ClearStatus`. -/
def backupClearStatus (m : BackupModel) : BackupModel :=
  { m with status := "", isError := false }

/-- `AddBookModel.Reset`. -/
def addReset (m : AddBookForm) : AddBookForm :=
  { m with err := none, saved := false, focused := 0, selectedType := 0,
           titleVal := "", authorVal := "", notesVal := "" }

/-- `EditModel.SetBook`: pre-fill the form from the selected book; the
selector index is changed only when the book's type occurs in
`bookTypes` (the Go loop breaks on the first match and otherwise leaves
the selector untouched). -/
def editSetBook (m : EditBookForm) (b : Book) : EditBookForm :=
  { m with selectedBook := some b, focused := 0, err := none,
           titleVal := b.title, authorVal := b.author, notesVal := b.notes,
           selectedType :=
             match bookTypes.findIdx? (fun t => t = b.type) with
             | some i => (i : Int)
             | none => m.selectedType }

/-- `NewEditModel`. -/
def initialEditBookForm : EditBookForm :=
  { titleVal := "", authorVal := "", notesVal := "", selectedType := 0,
    focused := 0, err := none, selectedBook := none }

/-! ## The screen router (`internal/ui/model.go`, `Model.Update`)

The router holds the current screen and every per-screen model, plus
the long-lived database handle (used by the menu's item refresh).  This
revision routes the menu, add, list, detail, edit and backup screens;
a current screen without a `case` leaves `newScreen` at its zero value
(`MenuScreen`), which then triggers a transition to the menu. -/

/-- The state of the top-level `Model`. -/
structure AppModel where
  db : DBState
  currentScreen : Screen
  menu : MenuModel
  addBook : AddBookForm
  listBooks : ListBooksModel
  detail : DetailModel
  edit : EditBookForm
  backup : BackupModel
deriving Repr, DecidableEq

/-- `NewModel`: the application starts on the menu. -/
def initialAppModel (db : DBState) : AppModel :=
  { db := db, currentScreen := .menu, menu := initialMenuModel db,
    addBook := initialAddBookForm, listBooks := initialListBooksModel,
    detail := initialDetailModel, edit := initialEditBookForm,
    backup := initialBackupModel }

/-- The per-screen dispatch of `Model.Update`, including the router's
side-effects attached to each case: `Reset`/`RefreshItems` when the Add
screen returns to the menu, `SetBook` when the list yields a selection
or the detail screen opens the editor, `ClearUpdated` when the editor
returns, and the `SwitchScreenMsg` handling of the backup case.  The
dereference of the selection pointer in `m.edit.SetBook` is guarded by
the match on `selectedBook` (the `none` branch is the nil dereference,
unreachable by the C9 invariant). -/
def routerDispatch (m : AppModel) (msg : Msg) : AppModel × Screen :=
  match m.currentScreen with
  | .menu =>
    match msg with
    | .keyMsg k =>
      let r := menuUpdate m.menu k
      ({ m with menu := r.1 }, r.2)
    | _ => (m, m.currentScreen)
  | .addBook =>
    let r := addUpdate m.addBook msg
    let m' := { m with addBook := r.1 }
    if r.2 = .menu then
      ({ m' with addBook := addReset r.1, menu := menuRefreshItems m'.db m'.menu }, r.2)
    else (m', r.2)
  | .listBooks =>
    let r := listUpdate m.listBooks msg
    let m' := { m with listBooks := r.1 }
    let m' := match r.2.2 with
      | some b => { m' with detail := detailSetBook m'.detail b }
      | none => m'
    if r.2.1 = .menu then
      ({ m' with menu := menuRefreshItems m'.db m'.menu }, r.2.1)
    else (m', r.2.1)
  | .bookDetail =>
    let r := detailUpdate m.detail msg
    let m' := { m with detail := r.1 }
    if r.2 = .editBook then
      (match r.1.selectedBook with
       | some b => ({ m' with edit := editSetBook m'.edit b }, r.2)
       | none => (m', r.2))
    else (m', r.2)
  | .editBook =>
    let r := editUpdate m.edit msg
    let m' := { m with edit := r.1 }
    if r.2 = .bookDetail then
      ({ m' with detail := detailClearUpdated m'.detail }, r.2)
    else (m', r.2)
  | .backup =>
    let m' := { m with backup := backupUpdate m.backup msg }
    (m', match msg with
         | .switchScreenMsg s => s
         | _ => m.currentScreen)
  | _ => (m, .menu)

/-- The transition block at the end of `Model.Update`: commit the screen
switch and run the entry side-effects (`ClearDeleted` for the list,
`ClearStatus` for the backup screen). -/
def applyTransition (m : AppModel) (newScreen : Screen) : AppModel :=
  if newScreen = m.currentScreen then m
  else
    let m := { m with currentScreen := newScreen }
    let m := if newScreen = .listBooks then { m with listBooks := listClearDeleted m.listBooks }
             else m
    if newScreen = .backup then { m with backup := backupClearStatus m.backup } else m

/-- `Model.Update`: the global quit overrides, then per-screen dispatch,
then the transition block.  A quit returns the state unchanged (the
process exits). -/
def routerStep (m : AppModel) (msg : Msg) : AppModel :=
  let quitting := match msg with
    | .keyMsg k => globalKeyQuits m.currentScreen k
    | _ => false
  if quitting then m
  else
    let r := routerDispatch m msg
    applyTransition r.1 r.2

/-- The messages the running system can deliver: arbitrary key events
and completion payloads, but `SwitchScreenMsg` only carries the screens
the code ever passes to `SwitchScreenCmd` (the main menu and the
utilities menu). -/
def producible (msg : Msg) : Bool :=
  match msg with
  | .switchScreenMsg s => s = .menu ∨ s = .utilities
  | _ => true

/-! ## Claim C10: the list screen's index invariant -/

/-- Every single `ListBooksModel.Update` step preserves the index
invariant. -/
theorem listUpdate_listInv (m : ListBooksModel) (msg : Msg) (h : listInv m) :
    listInv (listUpdate m msg).1 := by
  obtain ⟨h0, h1⟩ := h
  cases msg with
  | keyMsg k =>
    simp only [listUpdate]
    split_ifs
    all_goals
      first
        | exact ⟨h0, h1⟩
        | (constructor <;> (try intro hpos) <;> (try dsimp only at hpos) <;>
            (try dsimp only) <;> omega)
  | loadBooksMsg books err =>
    cases err with
    | some e => exact ⟨h0, h1⟩
    | none =>
      simp only [listUpdate]
      split_ifs
      all_goals
        constructor <;> (try intro hpos) <;> (try dsimp only at hpos) <;>
          (try dsimp only) <;> omega
  | deleteMsg err => cases err with
    | some e => exact ⟨h0, h1⟩
    | none => exact ⟨h0, h1⟩
  | saveMsg err => exact ⟨h0, h1⟩
  | updateMsg err => exact ⟨h0, h1⟩
  | backupMsg err => exact ⟨h0, h1⟩
  | switchScreenMsg s => exact ⟨h0, h1⟩

/-- The index invariant is preserved by any sequence of updates. -/
theorem foldl_listUpdate_listInv (msgs : List Msg) (m : ListBooksModel)
    (h : listInv m) :
    listInv (msgs.foldl (fun m' msg => (listUpdate m' msg).1) m) := by
  induction msgs generalizing m with
  | nil => exact h
  | cons msg msgs ih => exact ih _ (listUpdate_listInv m msg h)

/-- **C10.** Starting from the initial list model, after any sequence of
`Update` calls the selected index is in bounds whenever the book list is
non-empty; moreover navigation clamps at the ends (`up` at index 0 and
`down` at the last index leave the index unchanged) and a reload that
shrinks the list below the index clamps the index to the new last
element. -/
theorem list_index_in_bounds (msgs : List Msg) :
    ((msgs.foldl (fun m' msg => (listUpdate m' msg).1) initialListBooksModel).books ≠ [] →
      0 ≤ (msgs.foldl (fun m' msg => (listUpdate m' msg).1) initialListBooksModel).index ∧
      (msgs.foldl (fun m' msg => (listUpdate m' msg).1) initialListBooksModel).index <
        ((msgs.foldl (fun m' msg => (listUpdate m' msg).1) initialListBooksModel).books.length : Int)) ∧
    (∀ m : ListBooksModel, m.index = 0 → ((listUpdate m (.keyMsg .up)).1).index = 0) ∧
    (∀ m : ListBooksModel, m.index = (m.books.length : Int) - 1 →
      ((listUpdate m (.keyMsg .down)).1).index = m.index) ∧
    (∀ (m : ListBooksModel) (books : List Book), 0 < books.length →
      (books.length : Int) ≤ m.index →
      ((listUpdate m (.loadBooksMsg books none)).1).index = (books.length : Int) - 1) := by
  refine ⟨?_, ?_, ?_, ?_⟩
  · intro hne
    have hinit : listInv initialListBooksModel := ⟨le_refl 0, by simp [initialListBooksModel]⟩
    have h := foldl_listUpdate_listInv msgs initialListBooksModel hinit
    exact ⟨h.1, h.2 (List.length_pos.mpr hne)⟩
  · intro m hm
    simp only [listUpdate]
    split_ifs <;> simp_all
  · intro m hm
    simp only [listUpdate]
    split_ifs <;> simp_all
  · intro m books hpos hle
    simp only [listUpdate]
    split_ifs with hcl
    · rfl
    · exact absurd ⟨hle, hpos⟩ hcl

/-- Witness for `list_index_in_bounds`: a load followed by a `down`
keystroke leaves the index in bounds of the two-element list. -/
theorem list_index_in_bounds_witness :
    let bk : Nat → Book := fun i =>
      { id := i, title := "T", author := "A", type := "paperback", notes := "",
        createdAt := i, updatedAt := i }
    let msgs : List Msg := [.loadBooksMsg [bk 1, bk 2] none, .keyMsg .down]
    ((msgs.foldl (fun m' msg => (listUpdate m' msg).1) initialListBooksModel).books ≠ [] ∧
      0 ≤ (msgs.foldl (fun m' msg => (listUpdate m' msg).1) initialListBooksModel).index ∧
      (msgs.foldl (fun m' msg => (listUpdate m' msg).1) initialListBooksModel).index <
        ((msgs.foldl (fun m' msg => (listUpdate m' msg).1) initialListBooksModel).books.length : Int)) :=
  ⟨by decide, (list_index_in_bounds _).1 (by decide)⟩

/-! ## Claim C9: the detail screen's selection is always present -/

/-- The menu only ever moves to the menu, add or list screens. -/
theorem menuUpdate_screen (m : MenuModel) (k : Key) :
    (menuUpdate m k).2 = .menu ∨ (menuUpdate m k).2 = .addBook ∨
      (menuUpdate m k).2 = .listBooks := by
  simp only [menuUpdate]
  split_ifs <;> simp

/-- The Add form only ever moves to the menu or stays on itself. -/
theorem addUpdate_screen (m : AddBookForm) (msg : Msg) :
    (addUpdate m msg).2 = .menu ∨ (addUpdate m msg).2 = .addBook := by
  cases msg with
  | keyMsg k =>
    simp only [addUpdate, addKeyUpdate]
    split_ifs <;> simp
  | saveMsg err => cases err <;> simp [addUpdate]
  | updateMsg err => simp [addUpdate]
  | deleteMsg err => simp [addUpdate]
  | loadBooksMsg books err => simp [addUpdate]
  | backupMsg err => simp [addUpdate]
  | switchScreenMsg s => simp [addUpdate]

/-- The Edit form only ever moves to the detail screen or stays on
itself. -/
theorem editUpdate_screen (m : EditBookForm) (msg : Msg) :
    (editUpdate m msg).2 = .bookDetail ∨ (editUpdate m msg).2 = .editBook := by
  cases msg with
  | keyMsg k =>
    simp only [editUpdate, editKeyUpdate]
    split_ifs <;> simp
  | updateMsg err => cases err <;> simp [editUpdate]
  | saveMsg err => simp [editUpdate]
  | deleteMsg err => simp [editUpdate]
  | loadBooksMsg books err => simp [editUpdate]
  | backupMsg err => simp [editUpdate]
  | switchScreenMsg s => simp [editUpdate]

/-- The detail screen only ever moves to the list or edit screens, or
stays on itself. -/
theorem detailUpdate_screen (m : DetailModel) (msg : Msg) :
    (detailUpdate m msg).2 = .listBooks ∨ (detailUpdate m msg).2 = .bookDetail ∨
      (detailUpdate m msg).2 = .editBook := by
  cases msg with
  | keyMsg k =>
    simp only [detailUpdate]
    split_ifs <;> simp
  | updateMsg err => cases err <;> simp [detailUpdate]
  | deleteMsg err => cases err <;> simp [detailUpdate]
  | saveMsg err => simp [detailUpdate]
  | loadBooksMsg books err => simp [detailUpdate]
  | backupMsg err => simp [detailUpdate]
  | switchScreenMsg s => simp [detailUpdate]

/-- `DetailModel.Update` never changes the selected book. -/
theorem detailUpdate_selectedBook (m : DetailModel) (msg : Msg) :
    ((detailUpdate m msg).1).selectedBook = m.selectedBook := by
  cases msg with
  | keyMsg k =>
    simp only [detailUpdate]
    split_ifs <;> rfl
  | updateMsg err => cases err <;> rfl
  | deleteMsg err => cases err <;> rfl
  | saveMsg err => rfl
  | loadBooksMsg books err => rfl
  | backupMsg err => rfl
  | switchScreenMsg s => rfl

/-- The list screen only ever moves to the menu or detail screens, or
stays on itself. -/
theorem listUpdate_screen (m : ListBooksModel) (msg : Msg) :
    (listUpdate m msg).2.1 = .menu ∨ (listUpdate m msg).2.1 = .listBooks ∨
      (listUpdate m msg).2.1 = .bookDetail := by
  cases msg with
  | keyMsg k =>
    simp only [listUpdate]
    split_ifs <;> simp
  | loadBooksMsg books err => simp [listUpdate]
  | deleteMsg err => simp [listUpdate]
  | saveMsg err => simp [listUpdate]
  | updateMsg err => simp [listUpdate]
  | backupMsg err => simp [listUpdate]
  | switchScreenMsg s => simp [listUpdate]

/-- When the list screen navigates to the detail screen it always yields
a selected book: the `enter` branch requires a non-empty list, and the
index invariant puts the index in bounds. -/
theorem listUpdate_detail_selection (m : ListBooksModel) (msg : Msg)
    (hinv : listInv m) (hs : (listUpdate m msg).2.1 = .bookDetail) :
    ∃ b, (listUpdate m msg).2.2 = some b := by
  obtain ⟨h0, h1⟩ := hinv
  cases msg with
  | keyMsg k =>
    simp only [listUpdate] at hs ⊢
    split_ifs at hs ⊢
    have hpos : 0 < m.books.length := by assumption
    have hlt : m.index.toNat < m.books.length := by
      have := h1 hpos
      omega
    exact ⟨m.books[m.index.toNat], List.getElem?_eq_getElem hlt⟩
  | loadBooksMsg books err => simp [listUpdate] at hs
  | deleteMsg err => simp [listUpdate] at hs
  | saveMsg err => simp [listUpdate] at hs
  | updateMsg err => simp [listUpdate] at hs
  | backupMsg err => simp [listUpdate] at hs
  | switchScreenMsg s => simp [listUpdate] at hs

/-- The router invariant: whenever the current screen is the detail or
edit screen the detail model holds a selected book, and the list screen
satisfies its index invariant. -/
def routerInv (m : AppModel) : Prop :=
  ((m.currentScreen = .bookDetail ∨ m.currentScreen = .editBook) →
    ¬ m.detail.selectedBook = none) ∧
  listInv m.listBooks

/-- The transition block preserves the router invariant, given that the
target screen is safe and the pre-transition state is sound. -/
theorem applyTransition_routerInv (m : AppModel) (s : Screen)
    (hd : (s = .bookDetail ∨ s = .editBook) → ¬ m.detail.selectedBook = none)
    (hcur : (m.currentScreen = .bookDetail ∨ m.currentScreen = .editBook) →
      ¬ m.detail.selectedBook = none)
    (hl : listInv m.listBooks) :
    routerInv (applyTransition m s) := by
  unfold applyTransition routerInv
  split_ifs <;> first | exact ⟨hcur, hl⟩ | exact ⟨hd, hl⟩

/-- The per-screen dispatch establishes the three obligations of the
transition block: a safe target screen, soundness relative to the old
screen, and the list invariant. -/
theorem routerDispatch_obligations (m : AppModel) (msg : Msg)
    (hp : producible msg = true)
    (hdet : (m.currentScreen = .bookDetail ∨ m.currentScreen = .editBook) →
      ¬ m.detail.selectedBook = none)
    (hlist : listInv m.listBooks) :
    (((routerDispatch m msg).2 = .bookDetail ∨ (routerDispatch m msg).2 = .editBook) →
      ¬ (routerDispatch m msg).1.detail.selectedBook = none) ∧
    (((routerDispatch m msg).1.currentScreen = .bookDetail ∨
      (routerDispatch m msg).1.currentScreen = .editBook) →
      ¬ (routerDispatch m msg).1.detail.selectedBook = none) ∧
    listInv (routerDispatch m msg).1.listBooks := by
  cases hcs : m.currentScreen with
  | menu =>
    cases msg with
    | keyMsg k =>
      simp only [routerDispatch, hcs]
      refine ⟨?_, ?_, hlist⟩
      · intro hc
        rcases menuUpdate_screen m.menu k with h | h | h <;> simp [h] at hc
      · intro hc
        simp [hcs] at hc
    | saveMsg err =>
      simp only [routerDispatch, hcs]
      refine ⟨?_, ?_, hlist⟩ <;> intro hc <;> simp [hcs] at hc
    | updateMsg err =>
      simp only [routerDispatch, hcs]
      refine ⟨?_, ?_, hlist⟩ <;> intro hc <;> simp [hcs] at hc
    | deleteMsg err =>
      simp only [routerDispatch, hcs]
      refine ⟨?_, ?_, hlist⟩ <;> intro hc <;> simp [hcs] at hc
    | loadBooksMsg books err =>
      simp only [routerDispatch, hcs]
      refine ⟨?_, ?_, hlist⟩ <;> intro hc <;> simp [hcs] at hc
    | backupMsg err =>
      simp only [routerDispatch, hcs]
      refine ⟨?_, ?_, hlist⟩ <;> intro hc <;> simp [hcs] at hc
    | switchScreenMsg s =>
      simp only [routerDispatch, hcs]
      refine ⟨?_, ?_, hlist⟩ <;> intro hc <;> simp [hcs] at hc
  | addBook =>
    simp only [routerDispatch, hcs]
    split_ifs with hmenu
    · refine ⟨?_, ?_, hlist⟩
      · intro hc
        rcases addUpdate_screen m.addBook msg with h | h <;> simp [h] at hc
      · intro hc
        simp [hcs] at hc
    · refine ⟨?_, ?_, hlist⟩
      · intro hc
        rcases addUpdate_screen m.addBook msg with h | h <;> simp [h] at hc
      · intro hc
        simp [hcs] at hc
  | listBooks =>
    have hlinv := listUpdate_listInv m.listBooks msg hlist
    simp only [routerDispatch, hcs]
    rcases hsel : (listUpdate m.listBooks msg).2.2 with _ | b
    · -- no selection: the detail model is untouched, so the dispatch
      -- must not be entering the detail screen
      simp only [hsel]
      split_ifs with hmenu
      · refine ⟨?_, ?_, hlinv⟩
        · intro hc
          rw [hmenu] at hc
          simp at hc
        · intro hc
          simp [hcs] at hc
      · refine ⟨?_, ?_, hlinv⟩
        · intro hc
          rcases listUpdate_screen m.listBooks msg with h | h | h
          · exact absurd h hmenu
          · rw [h] at hc
            simp at hc
          · rcases listUpdate_detail_selection m.listBooks msg hlist h with ⟨b, hb⟩
            rw [hsel] at hb
            exact absurd hb (by simp)
        · intro hc
          simp [hcs] at hc
    · -- a selection: `SetBook` stores it in the detail model
      simp only [hsel]
      split_ifs with hmenu
      · refine ⟨fun _ => ?_, fun _ => ?_, hlinv⟩ <;> simp [detailSetBook]
      · refine ⟨fun _ => ?_, fun _ => ?_, hlinv⟩ <;> simp [detailSetBook]
  | bookDetail =>
    have hsb : ¬ m.detail.selectedBook = none := hdet (by simp [hcs])
    have hpres := detailUpdate_selectedBook m.detail msg
    simp only [routerDispatch, hcs]
    split_ifs with hedit
    · rcases hsel : (detailUpdate m.detail msg).1.selectedBook with _ | b
      · rw [hpres] at hsel
        exact absurd hsel hsb
      · simp only [hsel]
        refine ⟨fun _ => ?_, fun _ => ?_, hlist⟩ <;> simp [hsel]
    · refine ⟨fun _ => ?_, fun _ => ?_, hlist⟩ <;>
        (show ¬ (detailUpdate m.detail msg).1.selectedBook = none) <;>
        (rw [hpres]; exact hsb)
  | editBook =>
    have hsb : ¬ m.detail.selectedBook = none := hdet (by simp [hcs])
    simp only [routerDispatch, hcs]
    split_ifs with hdetail
    · exact ⟨fun _ => hsb, fun _ => hsb, hlist⟩
    · exact ⟨fun _ => hsb, fun _ => hsb, hlist⟩
  | utilities =>
    simp only [routerDispatch, hcs]
    refine ⟨?_, ?_, hlist⟩ <;> intro hc <;> simp [hcs] at hc
  | exportScreen =>
    simp only [routerDispatch, hcs]
    refine ⟨?_, ?_, hlist⟩ <;> intro hc <;> simp [hcs] at hc
  | backup =>
    cases msg with
    | switchScreenMsg s =>
      have hps : s = .menu ∨ s = .utilities := by
        simpa [producible] using hp
      simp only [routerDispatch, hcs]
      refine ⟨?_, ?_, hlist⟩
      · intro hc
        rcases hps with h | h <;> rw [h] at hc <;> simp at hc
      · intro hc
        simp [hcs] at hc
    | keyMsg k =>
      simp only [routerDispatch, hcs]
      refine ⟨?_, ?_, hlist⟩ <;> intro hc <;> simp [hcs] at hc
    | saveMsg err =>
      simp only [routerDispatch, hcs]
      refine ⟨?_, ?_, hlist⟩ <;> intro hc <;> simp [hcs] at hc
    | updateMsg err =>
      simp only [routerDispatch, hcs]
      refine ⟨?_, ?_, hlist⟩ <;> intro hc <;> simp [hcs] at hc
    | deleteMsg err =>
      simp only [routerDispatch, hcs]
      refine ⟨?_, ?_, hlist⟩ <;> intro hc <;> simp [hcs] at hc
    | loadBooksMsg books err =>
      simp only [routerDispatch, hcs]
      refine ⟨?_, ?_, hlist⟩ <;> intro hc <;> simp [hcs] at hc
    | backupMsg err =>
      simp only [routerDispatch, hcs]
      refine ⟨?_, ?_, hlist⟩ <;> intro hc <;> simp [hcs] at hc

/-- One router step preserves the router invariant. -/
theorem routerStep_routerInv (m : AppModel) (msg : Msg)
    (hp : producible msg = true) (h : routerInv m) :
    routerInv (routerStep m msg) := by
  obtain ⟨hdet, hlist⟩ := h
  have hob := routerDispatch_obligations m msg hp hdet hlist
  have happ := applyTransition_routerInv (routerDispatch m msg).1 (routerDispatch m msg).2
    hob.1 hob.2.1 hob.2.2
  cases msg with
  | keyMsg k =>
    simp only [routerStep]
    split_ifs with hq
    · exact ⟨hdet, hlist⟩
    · exact happ
  | saveMsg err => exact happ
  | updateMsg err => exact happ
  | deleteMsg err => exact happ
  | loadBooksMsg books err => exact happ
  | backupMsg err => exact happ
  | switchScreenMsg s => exact happ

/-- The router invariant holds along any producible message sequence. -/
theorem foldl_routerStep_routerInv (msgs : List Msg) (m : AppModel)
    (hp : ∀ msg ∈ msgs, producible msg = true) (h : routerInv m) :
    routerInv (msgs.foldl routerStep m) := by
  induction msgs generalizing m with
  | nil => exact h
  | cons msg msgs ih =>
    exact ih _ (fun x hx => hp x (List.mem_cons_of_mem _ hx))
      (routerStep_routerInv m msg (hp msg (List.mem_cons_self _ _)) h)

/-- **C9.** In every state the Screen Router reaches from the initial
state by producible messages, whenever the current screen is the
book-detail screen the detail model holds a selected book, so the
unguarded `SelectedBook.ID` dereference of the delete command always
finds an id. -/
theorem router_detail_selection_present (db : DBState) (msgs : List Msg)
    (hp : ∀ msg ∈ msgs, producible msg = true) :
    ((msgs.foldl routerStep (initialAppModel db)).currentScreen = .bookDetail →
      ¬ (msgs.foldl routerStep (initialAppModel db)).detail.selectedBook = none) ∧
    ((msgs.foldl routerStep (initialAppModel db)).currentScreen = .bookDetail →
      (deleteBookCmdId (msgs.foldl routerStep (initialAppModel db)).detail).isSome = true) := by
  have hinit : routerInv (initialAppModel db) := by
    constructor
    · intro hc
      simp [initialAppModel] at hc
    · exact ⟨le_refl 0, by simp [initialAppModel, initialListBooksModel]⟩
  have h := foldl_routerStep_routerInv msgs (initialAppModel db) hp hinit
  refine ⟨fun hc => h.1 (Or.inl hc), fun hc => ?_⟩
  have hsb := h.1 (Or.inl hc)
  rcases hsel : (msgs.foldl routerStep (initialAppModel db)).detail.selectedBook with _ | b
  · exact absurd hsel hsb
  · simp [deleteBookCmdId, hsel]

/-- Witness for `router_detail_selection_present`: navigate the menu to
the list, load one book, and select it. -/
theorem router_detail_selection_present_witness :
    let db : DBState :=
      { books := [{ id := 1, title := "T", author := "A", type := "paperback",
                    notes := "", createdAt := 1, updatedAt := 1 }], nextId := 2 }
    let msgs : List Msg := [.keyMsg .down, .keyMsg .enter,
      .loadBooksMsg [{ id := 1, title := "T", author := "A", type := "paperback",
                       notes := "", createdAt := 1, updatedAt := 1 }] none,
      .keyMsg .enter]
    (∀ msg ∈ msgs, producible msg = true) ∧
    ((msgs.foldl routerStep (initialAppModel db)).currentScreen = .bookDetail ∧
      ¬ (msgs.foldl routerStep (initialAppModel db)).detail.selectedBook = none) :=
  ⟨by decide, by decide,
    (router_detail_selection_present _ _ (by decide)).1 (by decide)⟩

end Libros
